import Mathlib

/-!
Shallow embedding of astro-validate-env: the rule evaluator and report
rendering (src/validator.ts, function validateEnv) and the declaration
generator (src/process-env-gen.ts, function generateProcessEnvDeclaration).

JavaScript conditionals use truthiness: the empty string and the number 0
are falsy. The gates below reproduce that exactly; for example the source
check `if (length && value.length !== length)` is skipped when length is 0.
String length is modelled as the number of characters. Whether the platform
call `new URL(value)` throws is external to the repository, so the evaluator
is parameterised by a predicate urlOk; every theorem holds for every urlOk.
The process environment is the explicit read-only lookup env, and the log
prefix computed from the wall clock is an explicit string parameter.
-/

inductive AstroContext where
  | dev
  | build
  | server
deriving DecidableEq

/-- The exactly option of a rule: a single string or an array of strings. -/
inductive ExactlyVal where
  | str (s : String)
  | list (l : List String)
deriving DecidableEq

/-- One rule, as produced by the zod schema varsSchema in src/index.ts with
its defaults already applied: context defaults to all three contexts,
optional and secret to false, min to 1, and every other constraint is
absent unless set. -/
structure VarConfig where
  context : List AstroContext := [.dev, .build, .server]
  optional : Bool := false
  secret : Bool := false
  exactly : Option ExactlyVal := none
  startsWith : Option String := none
  endsWith : Option String := none
  includes : Option String := none
  length : Option Nat := none
  min : Nat := 1
  max : Option Nat := none
  url : Option Bool := none
deriving DecidableEq

/-- The InvalidVar record accumulated by validateEnv in src/validator.ts. -/
structure InvalidVar where
  key : String
  value : Option String
  issues : List String
  secret : Bool
deriving DecidableEq

def strStartsWith (v p : String) : Bool := p.data.isPrefixOf v.data

def strEndsWith (v s : String) : Bool := s.data.isSuffixOf v.data

def containsSeg (needle : List Char) : List Char → Bool
  | [] => needle.isPrefixOf []
  | c :: rest => needle.isPrefixOf (c :: rest) || containsSeg needle rest

def strIncludes (v s : String) : Bool := containsSeg s.data v.data

def getCharacterString (value : Nat) : String :=
  if value = 1 then "character" else "characters"

def startsWithMsg (s : String) : String := "Expected to start with \x27" ++ s ++ "\x27"

def endsWithMsg (s : String) : String := "Expected to end with \x27" ++ s ++ "\x27"

def includesMsg (s : String) : String := "Expected to include \x27" ++ s ++ "\x27"

def lengthMsg (n : Nat) : String := "Expected to be exactly " ++ toString n ++ " characters long"

def minMsg (n : Nat) : String :=
  "Expected to be at least " ++ toString n ++ " " ++ getCharacterString n ++ " long"

def maxMsg (n : Nat) : String :=
  "Expected to be at most " ++ toString n ++ " " ++ getCharacterString n ++ " long"

def urlMsg : String := "Expected to be a valid URL"

/-- JavaScript truthiness of the exactly option: an empty string is falsy,
any array is truthy. -/
def exactlyTruthy : ExactlyVal → Bool
  | .str s => s != ""
  | .list _ => true

def exactlyPasses (v : String) : ExactlyVal → Bool
  | .str s => v == s
  | .list l => l.contains v

def exactlyMsg : ExactlyVal → String
  | .str s => "Expected exactly \x27" ++ s ++ "\x27"
  | .list l => "Expected to exactly match one of \x27" ++ String.intercalate "\x27, \x27" l ++ "\x27"

/-- The accumulation stage of validateEnv for a present value: the
startsWith, endsWith, includes, length, min, max and url checks, in source
order, each guarded by the source truthiness test of its option. -/
def checkIssues (urlOk : String → Bool) (cfg : VarConfig) (v : String) : List String :=
  (match cfg.startsWith with
    | some s => if s ≠ "" ∧ ¬ strStartsWith v s then [startsWithMsg s] else []
    | none => []) ++
  (match cfg.endsWith with
    | some s => if s ≠ "" ∧ ¬ strEndsWith v s then [endsWithMsg s] else []
    | none => []) ++
  (match cfg.includes with
    | some s => if s ≠ "" ∧ ¬ strIncludes v s then [includesMsg s] else []
    | none => []) ++
  (match cfg.length with
    | some n => if n ≠ 0 ∧ v.length ≠ n then [lengthMsg n] else []
    | none => []) ++
  (if v.length < cfg.min then [minMsg cfg.min] else []) ++
  (match cfg.max with
    | some n => if n ≠ 0 ∧ n < v.length then [maxMsg n] else []
    | none => []) ++
  (match cfg.url with
    | some true => if ¬ urlOk v then [urlMsg] else []
    | _ => [])

/-- Tail of the per-variable pass: push the InvalidVar only when at least
one issue accumulated (line `if (invalidVar.issues.length > 0)`). -/
def finishVar (urlOk : String → Bool) (key : String) (cfg : VarConfig) (v : String) :
    Option InvalidVar :=
  if (checkIssues urlOk cfg v).length > 0 then
    some { key := key, value := some v, issues := checkIssues urlOk cfg v, secret := cfg.secret }
  else none

/-- One loop iteration of validateEnv after the context gate: value lookup
result is passed in, absent values handle optional and Missing, a truthy
failing exactly option is terminal, otherwise the checks accumulate. -/
def evalVar (urlOk : String → Bool) (key : String) (cfg : VarConfig) (value : Option String) :
    Option InvalidVar :=
  match value with
  | none =>
    if cfg.optional then none
    else some { key := key, value := none, issues := ["Missing"], secret := cfg.secret }
  | some v =>
    match cfg.exactly with
    | some e =>
      if exactlyTruthy e ∧ exactlyPasses v e = false then
        some { key := key, value := some v, issues := [exactlyMsg e], secret := cfg.secret }
      else finishVar urlOk key cfg v
    | none => finishVar urlOk key cfg v

/-- The evaluation loop of validateEnv: iterate the rule mapping in
insertion order, skip rules whose context list does not contain the active
context, and collect the InvalidVar records. -/
def validateEnv (urlOk : String → Bool) (vars : List (String × VarConfig))
    (astroContext : AstroContext) (env : String → Option String) : List InvalidVar :=
  match vars with
  | [] => []
  | (key, cfg) :: rest =>
    if cfg.context.contains astroContext then
      match evalVar urlOk key cfg (env key) with
      | some iv => iv :: validateEnv urlOk rest astroContext env
      | none => validateEnv urlOk rest astroContext env
    else validateEnv urlOk rest astroContext env

/-- Value rendering for one report line, following the source branch order:
absent renders nothing, the empty string renders ="", a secret non-empty
value renders =<secret>, otherwise the value is rendered literally. -/
def valueString (value : Option String) (secret : Bool) : String :=
  match value with
  | none => ""
  | some v =>
    if v = "" then "=\x22\x22"
    else if secret then "=<secret>"
    else if v ≠ "" then "=" ++ v
    else ""

def renderLine (iv : InvalidVar) : String :=
  iv.key ++ valueString iv.value iv.secret ++ " -> " ++ String.intercalate ", " iv.issues

/-- Observable output of the reporting tail of validateEnv: the lines sent
to the error stream, the lines sent to the info stream, and the exit code
passed to process.exit when it is called. -/
structure ReportOutput where
  errorLines : List String
  infoLines : List String
  exitCode : Option Nat
deriving DecidableEq

/-- Reporting tail of validateEnv: on violations, the header then one line
per InvalidVar on the error stream followed by process.exit(1); otherwise a
single success line on the info stream and no exit. -/
def report (logPre : String) (invalidVars : List InvalidVar) : ReportOutput :=
  if invalidVars.length > 0 then
    { errorLines :=
        (logPre ++ "The following environment variables are invalid:\n") ::
          invalidVars.map renderLine
      infoLines := []
      exitCode := some 1 }
  else
    { errorLines := []
      infoLines := [logPre ++ "All configured environment variables are valid"]
      exitCode := none }

/-- One member line of the generated declaration, from
generateProcessEnvDeclaration in src/process-env-gen.ts. -/
def memberLine (key : String) (opt : Bool) : String :=
  if opt then "      readonly " ++ key ++ "?: string"
  else "      readonly " ++ key ++ ": string"

def envDeclarationHeader : String :=
  "declare global \x7b\n  namespace NodeJS \x7b\n    interface ProcessEnv \x7b\n"

def envDeclarationFooter : String :=
  "\n    \x7d\n  \x7d\n\x7d\n\nexport \x7b\x7d\n"

/-- Text produced by generateProcessEnvDeclaration: one member line per
rule in mapping order, joined by newlines inside the fixed template. -/
def generateProcessEnvDeclaration (vars : List (String × VarConfig)) : String :=
  envDeclarationHeader ++
    String.intercalate "\n" (vars.map (fun kc => memberLine kc.1 kc.2.optional)) ++
    envDeclarationFooter

def setOptional (cfg : VarConfig) (b : Bool) : VarConfig := { cfg with optional := b }

def optIssues : Option InvalidVar → List String
  | none => []
  | some iv => iv.issues

/-- Helper: whenever finishVar pushes an InvalidVar, its issues list is the
accumulated non-empty list. -/
theorem finishVar_some_issues (urlOk : String → Bool) (key : String) (cfg : VarConfig)
    (v : String) (iv : InvalidVar) (h : finishVar urlOk key cfg v = some iv) :
    iv.issues ≠ [] := by
  unfold finishVar at h
  split at h
  · next hpos =>
    injection h with h2
    subst h2
    simpa using List.length_pos.mp hpos
  · exact absurd h (by simp)

/-- Helper: every InvalidVar produced by one evaluator iteration carries at
least one issue. -/
theorem evalVar_some_issues (urlOk : String → Bool) (key : String) (cfg : VarConfig)
    (value : Option String) (iv : InvalidVar) (h : evalVar urlOk key cfg value = some iv) :
    iv.issues ≠ [] := by
  cases value with
  | none =>
    simp only [evalVar] at h
    split at h
    · exact absurd h (by simp)
    · injection h with h2; subst h2; simp
  | some v =>
    simp only [evalVar] at h
    split at h
    · split at h
      · injection h with h2; subst h2; simp
      · exact finishVar_some_issues _ _ _ _ _ h
    · exact finishVar_some_issues _ _ _ _ _ h

/-- C1, counterexample: the claim fails when the exact-match constraint is
the empty single string. JavaScript truthiness makes `if (exactly)` skip the
whole exact-match block, so for the rule with exactly set to the empty
string and an exact-length constraint of 5, the value xx fails the
exact-match target yet the emitted violation holds one issue contributed by
the exact-length check, not by the exact-match check. -/
theorem exactMatch_empty_target_counterexample :
    validateEnv (fun _ => false)
        [("KEY", ({ exactly := some (.str ""), length := some 5 } : VarConfig))] .dev
        (fun _ => some "xx") =
      [{ key := "KEY", value := some "xx", issues := [lengthMsg 5], secret := false }] ∧
    exactlyPasses "xx" (.str "") = false ∧
    lengthMsg 5 ≠ exactlyMsg (.str "") := by
  refine ⟨by decide, by decide, by decide⟩

/-- C1 (amended): for every rule whose exact-match constraint is set and
truthy (a non-empty single string, or any array), a present value that
fails it yields a violation whose issues list is exactly the one
exact-match issue, so no other check contributes; and when the value passes
it, evaluation proceeds exactly as the accumulation stage finishVar, so all
remaining checks execute normally. -/
theorem exactMatch_short_circuit (urlOk : String → Bool) (key : String) (cfg : VarConfig)
    (v : String) (e : ExactlyVal) (hset : cfg.exactly = some e)
    (htruthy : exactlyTruthy e = true) :
    (exactlyPasses v e = false →
      evalVar urlOk key cfg (some v) =
        some { key := key, value := some v, issues := [exactlyMsg e], secret := cfg.secret }) ∧
    (exactlyPasses v e = true →
      evalVar urlOk key cfg (some v) = finishVar urlOk key cfg v) := by
  constructor <;> intro h <;> simp [evalVar, hset, htruthy, h]

/-- C1, witness: the list target [a, b] fails on value c with the single
exact-match issue, and passes on value a with the accumulation stage run. -/
theorem exactMatch_short_circuit_witness :
    evalVar (fun _ => false) "K" ({ exactly := some (.list ["a", "b"]) } : VarConfig)
        (some "c") =
      some { key := "K", value := some "c", issues := [exactlyMsg (.list ["a", "b"])],
             secret := false } ∧
    evalVar (fun _ => false) "K" ({ exactly := some (.list ["a", "b"]) } : VarConfig)
        (some "a") =
      finishVar (fun _ => false) "K" ({ exactly := some (.list ["a", "b"]) } : VarConfig) "a" :=
  ⟨(exactMatch_short_circuit (fun _ => false) "K"
      { exactly := some (.list ["a", "b"]) } "c" (.list ["a", "b"]) rfl (by decide)).1
      (by decide),
   (exactMatch_short_circuit (fun _ => false) "K"
      { exactly := some (.list ["a", "b"]) } "a" (.list ["a", "b"]) rfl (by decide)).2
      (by decide)⟩

/-- C2, counterexample: an exact-length constraint of 0 is falsy in
JavaScript, so the source check `if (length && value.length !== length)` is
skipped: the value a has length 1, not 0, yet evaluation yields no
violation at all, against the claim that an exact-length issue is recorded
for every n including n = 0. -/
theorem exactLength_zero_counterexample :
    validateEnv (fun _ => false) [("KEY", ({ length := some 0 } : VarConfig))] .dev
        (fun _ => some "a") = [] ∧
    ("a" : String).length ≠ 0 := by
  refine ⟨by decide, by decide⟩

/-- C2 (amended): for every rule with an exact-length constraint set to a
nonzero n and a present value whose length is not n, the accumulation stage
records the exact-length issue; in particular, when no exact-match
constraint is set, the evaluator records it for the variable. A constraint
of n = 0 is ignored by the source truthiness gate. -/
theorem exactLength_records_issue (urlOk : String → Bool) (key : String) (cfg : VarConfig)
    (v : String) (n : Nat) (hn : cfg.length = some n) (hnz : n ≠ 0) (hlen : v.length ≠ n) :
    lengthMsg n ∈ checkIssues urlOk cfg v ∧
    (cfg.exactly = none → lengthMsg n ∈ optIssues (evalVar urlOk key cfg (some v))) := by
  have h1 : lengthMsg n ∈ checkIssues urlOk cfg v := by
    simp [checkIssues, hn, hnz, hlen]
  refine ⟨h1, fun hex => ?_⟩
  have hne : checkIssues urlOk cfg v ≠ [] := fun hE => by simp [hE] at h1
  have hpos : 0 < (checkIssues urlOk cfg v).length := List.length_pos.mpr hne
  simpa [evalVar, hex, finishVar, optIssues, hpos] using h1

/-- C2, witness: constraint 7 on the two-character value ab records the
exact-length issue both in the accumulation stage and in the evaluator. -/
theorem exactLength_records_issue_witness :
    lengthMsg 7 ∈ checkIssues (fun _ => false) ({ length := some 7 } : VarConfig) "ab" ∧
    lengthMsg 7 ∈
      optIssues (evalVar (fun _ => false) "K" ({ length := some 7 } : VarConfig) (some "ab")) :=
  ⟨(exactLength_records_issue (fun _ => false) "K" { length := some 7 } "ab" 7 rfl
      (by decide) (by decide)).1,
   (exactLength_records_issue (fun _ => false) "K" { length := some 7 } "ab" 7 rfl
      (by decide) (by decide)).2 rfl⟩

/-- C3: for every reporting pass, a non-empty violation list produces the
header line followed by one rendered line per violation on the error
stream, no info line, and exit code 1 (nonzero); an empty list produces no
error line, the single informational success line, and no exit. -/
theorem report_outcome (logPre : String) (ivs : List InvalidVar) :
    (ivs ≠ [] →
      (report logPre ivs).errorLines =
        (logPre ++ "The following environment variables are invalid:\n") :: ivs.map renderLine ∧
      (report logPre ivs).errorLines.length = ivs.length + 1 ∧
      (report logPre ivs).infoLines = [] ∧
      (report logPre ivs).exitCode = some 1) ∧
    (ivs = [] →
      (report logPre ivs).errorLines = [] ∧
      (report logPre ivs).infoLines =
        [logPre ++ "All configured environment variables are valid"] ∧
      (report logPre ivs).exitCode = none) := by
  cases ivs <;> constructor <;> intro h <;> simp_all [report]

/-- C3, witness: one Missing violation exits with code 1, the empty list
does not exit. -/
theorem report_outcome_witness :
    (report "" [{ key := "K", value := none, issues := ["Missing"], secret := false }]).exitCode =
      some 1 ∧
    (report "" ([] : List InvalidVar)).exitCode = none :=
  ⟨((report_outcome ""
        [{ key := "K", value := none, issues := ["Missing"], secret := false }]).1
      (by decide)).2.2.2,
   ((report_outcome "" []).2 rfl).2.2⟩

/-- C4: for every rule whose context list contains the active context and
whose value is absent, an optional rule yields no violation, and a
non-optional rule yields exactly one violation whose issues list is exactly
the Missing issue, with no further checks run (the conclusion holds for
every constraint configuration of the rule). -/
theorem absent_value_eval (urlOk : String → Bool) (key : String) (cfg : VarConfig)
    (ctx : AstroContext) (env : String → Option String)
    (hctx : ctx ∈ cfg.context) (habsent : env key = none) :
    (cfg.optional = true → validateEnv urlOk [(key, cfg)] ctx env = []) ∧
    (cfg.optional = false →
      validateEnv urlOk [(key, cfg)] ctx env =
        [{ key := key, value := none, issues := ["Missing"], secret := cfg.secret }]) := by
  constructor <;> intro h <;> simp [validateEnv, hctx, habsent, evalVar, h]

/-- C4, witness: a non-optional rule with an absent value yields exactly
the Missing violation. -/
theorem absent_value_eval_witness :
    validateEnv (fun _ => false) [("K", ({ optional := false } : VarConfig))] .dev
        (fun _ => none) =
      [{ key := "K", value := none, issues := ["Missing"], secret := false }] :=
  (absent_value_eval (fun _ => false) "K" { optional := false } .dev (fun _ => none)
    (by decide) rfl).2 rfl

/-- C5: the minimum-length check runs in the accumulation stage for every
present value regardless of the other constraints (first conjunct, for
every configuration, so in particular with exact-length or maximum-length
set); a rule with exact-length 5 and min 3 accumulates two length issues on
the one-character value x; and a rule with every default (min 1) and a
present empty-string value yields exactly one violation whose issue is the
minimum-length message, which cites the minimum length. -/
theorem min_length_always_checked (urlOk : String → Bool) (cfg : VarConfig) (v : String)
    (h : v.length < cfg.min) :
    minMsg cfg.min ∈ checkIssues urlOk cfg v ∧
    checkIssues (fun _ => false) ({ length := some 5, min := 3 } : VarConfig) "x" =
      [lengthMsg 5, minMsg 3] ∧
    validateEnv (fun _ => false) [("K", ({} : VarConfig))] .dev (fun _ => some "") =
      [{ key := "K", value := some "", issues := [minMsg 1], secret := false }] ∧
    minMsg 1 = "Expected to be at least 1 character long" := by
  refine ⟨?_, by decide, by decide, by decide⟩
  simp [checkIssues, h]

/-- C5, witness: the empty value under the default minimum of 1 records the
minimum-length issue. -/
theorem min_length_always_checked_witness :
    minMsg 1 ∈ checkIssues (fun _ => false) ({} : VarConfig) "" :=
  (min_length_always_checked (fun _ => false) {} "" (by decide)).1

/-- C6: every report line is the key, then the value portion, then the
issue list; the value portion is empty when the value is absent, two double
quotes after the equals sign when the value is the empty string, the
redacted form when the secret flag is set and the value is non-empty, and
the literal value after the equals sign otherwise. -/
theorem violation_value_rendering (v : String) (secret : Bool) :
    (∀ iv : InvalidVar,
      renderLine iv =
        iv.key ++ valueString iv.value iv.secret ++ " -> " ++
          String.intercalate ", " iv.issues) ∧
    valueString none secret = "" ∧
    valueString (some "") secret = "=\x22\x22" ∧
    (v ≠ "" → valueString (some v) true = "=<secret>") ∧
    (v ≠ "" → valueString (some v) false = "=" ++ v) := by
  refine ⟨fun iv => rfl, rfl, by simp [valueString], fun h => ?_, fun h => ?_⟩ <;>
    simp [valueString, h]

/-- C6, witness: a non-empty secret value renders redacted, a non-empty
non-secret value renders literally. -/
theorem violation_value_rendering_witness :
    valueString (some "x") true = "=<secret>" ∧ valueString (some "x") false = "=x" :=
  ⟨(violation_value_rendering "x" true).2.2.2.1 (by decide),
   (violation_value_rendering "x" false).2.2.2.2 (by decide)⟩

/-- C7: a rule whose context list does not contain the active context
contributes nothing to the evaluation: the pass over the rule list is the
pass over the remaining rules for every environment lookup (so no value of
that variable is ever consulted and no check runs), and the single-rule
pass yields no violation. -/
theorem context_gating_skips_rule (urlOk : String → Bool) (key : String) (cfg : VarConfig)
    (ctx : AstroContext) (env : String → Option String) (rest : List (String × VarConfig))
    (h : ctx ∉ cfg.context) :
    validateEnv urlOk ((key, cfg) :: rest) ctx env = validateEnv urlOk rest ctx env ∧
    validateEnv urlOk [(key, cfg)] ctx env = [] := by
  constructor <;> simp [validateEnv, h]

/-- C7, witness: a rule scoped to the build context produces no violation
under the dev context even with an absent value. -/
theorem context_gating_skips_rule_witness :
    validateEnv (fun _ => false) [("K", ({ context := [.build] } : VarConfig))] .dev
        (fun _ => none) = [] :=
  (context_gating_skips_rule (fun _ => false) "K" { context := [.build] } .dev
    (fun _ => none) [] (by decide)).2

/-- C8: the declaration generator emits the fixed global-namespace template
around one member line per rule in mapping order, typed optional when the
optional flag is set and required otherwise; the member list has exactly
one line per rule; the two-rule example instantiates the full template; and
the output depends only on the keys and optional flags, so no constraint or
value takes part in generation. -/
theorem declaration_generation (vars vars₂ : List (String × VarConfig)) :
    generateProcessEnvDeclaration vars =
      envDeclarationHeader ++
        String.intercalate "\n" (vars.map (fun kc =>
          if kc.2.optional then "      readonly " ++ kc.1 ++ "?: string"
          else "      readonly " ++ kc.1 ++ ": string")) ++
        envDeclarationFooter ∧
    (vars.map (fun kc => memberLine kc.1 kc.2.optional)).length = vars.length ∧
    generateProcessEnvDeclaration [("A", ({} : VarConfig)), ("B", { optional := true })] =
      "declare global \x7b\n  namespace NodeJS \x7b\n    interface ProcessEnv \x7b\n      readonly A: string\n      readonly B?: string\n    \x7d\n  \x7d\n\x7d\n\nexport \x7b\x7d\n" ∧
    (vars.map (fun kc => (kc.1, kc.2.optional)) = vars₂.map (fun kc => (kc.1, kc.2.optional)) →
      generateProcessEnvDeclaration vars = generateProcessEnvDeclaration vars₂) := by
  refine ⟨by simp [generateProcessEnvDeclaration, memberLine], by simp, by decide, fun h => ?_⟩
  have h2 : vars.map (fun kc => memberLine kc.1 kc.2.optional) =
      vars₂.map (fun kc => memberLine kc.1 kc.2.optional) := by
    have h3 := congrArg (List.map (fun p : String × Bool => memberLine p.1 p.2)) h
    simpa [List.map_map, Function.comp] using h3
  simp [generateProcessEnvDeclaration, h2]

/-- C8, witness: changing only constraint fields (an exact-length and a
secret flag) leaves the generated declaration unchanged. -/
theorem declaration_generation_witness :
    generateProcessEnvDeclaration
        [("A", ({} : VarConfig)), ("B", ({ optional := true } : VarConfig))] =
      generateProcessEnvDeclaration
        [("A", ({ length := some 3 } : VarConfig)),
         ("B", ({ optional := true, secret := true } : VarConfig))] :=
  (declaration_generation [("A", {}), ("B", { optional := true })]
    [("A", { length := some 3 }), ("B", { optional := true, secret := true })]).2.2.2
    (by decide)

/-- C9: for every present value the optional flag has no effect on one
evaluator iteration (the result is identical for both settings of the
flag, for every configuration, so every check still runs), and an optional
rule with a present empty-string value still produces a violation. -/
theorem optional_flag_inert_when_present (urlOk : String → Bool) (key : String)
    (cfg : VarConfig) (v : String) (b : Bool) :
    evalVar urlOk key cfg (some v) = evalVar urlOk key (setOptional cfg b) (some v) ∧
    validateEnv (fun _ => false) [("K", ({ optional := true } : VarConfig))] .dev
        (fun _ => some "") =
      [{ key := "K", value := some "", issues := [minMsg 1], secret := false }] := by
  refine ⟨?_, by decide⟩
  cases cfg
  rfl

/-- C10: every violation returned by the evaluator has a non-empty issues
list, for every rule list, context and environment. -/
theorem violations_issues_nonempty (urlOk : String → Bool) (vars : List (String × VarConfig))
    (ctx : AstroContext) (env : String → Option String) (iv : InvalidVar)
    (hmem : iv ∈ validateEnv urlOk vars ctx env) : iv.issues ≠ [] := by
  induction vars with
  | nil => simp [validateEnv] at hmem
  | cons kc rest ih =>
    rw [validateEnv] at hmem
    split at hmem
    · rcases heq : evalVar urlOk kc.1 kc.2 (env kc.1) with _ | iv₂ <;> rw [heq] at hmem
      · exact ih hmem
      · rcases List.mem_cons.mp hmem with h | h
        · exact h ▸ evalVar_some_issues urlOk kc.1 kc.2 (env kc.1) iv₂ heq
        · exact ih h
    · exact ih hmem

/-- C10, witness: the Missing violation of a non-optional absent variable
has a non-empty issues list. -/
theorem violations_issues_nonempty_witness :
    ({ key := "K", value := none, issues := ["Missing"], secret := false } : InvalidVar).issues ≠
      [] :=
  violations_issues_nonempty (fun _ => false) [("K", ({} : VarConfig))] .dev (fun _ => none)
    { key := "K", value := none, issues := ["Missing"], secret := false } (by decide)
